import Mathlib

/-!
# Verification of the Steingass scraper's entry-normalization core

A shallow embedding of the text-normalization pipeline of the scraper:
strings are lists of Unicode scalar values (`List Char`), Rust's
`str::trim` / `String::replace` / `str::trim_end_matches` become
executable Lean functions, and each cleaning profile (`clean_simple`,
`clean_defs`, `clean_hw_full`, `clean_hw_per`, `clean_hw_lat`), the
language classifier (`get_lang`, `Lang`), and the definition-body tag
stripper (`except_headword_strip`) are translated rule for rule from
the Rust source, with every non-ASCII code point written as a `\u`
escape exactly as in the source.
-/

/-- The Unicode `White_Space` code points: the set Rust's
`char::is_whitespace` tests, hence what `str::trim` removes at either end. -/
def rustWhitespace : List Char :=
  ['\u0009', '\u000A', '\u000B', '\u000C', '\u000D', ' ', '\u0085',
   '\u00A0', '\u1680', '\u2000', '\u2001', '\u2002', '\u2003', '\u2004',
   '\u2005', '\u2006', '\u2007', '\u2008', '\u2009', '\u200A', '\u2028',
   '\u2029', '\u202F', '\u205F', '\u3000']

def rustIsWhitespace (c : Char) : Bool := rustWhitespace.contains c

/-- Rust `str::trim`: drop whitespace from both ends. -/
def rustTrim (s : List Char) : List Char :=
  ((s.dropWhile rustIsWhitespace).reverse.dropWhile rustIsWhitespace).reverse

/-- Rust `str::trim_end_matches('.')`: repeatedly remove a trailing period. -/
def trimEndMatchesDot (s : List Char) : List Char :=
  (s.reverse.dropWhile (fun c => c == '.')).reverse

/-- Worker for `replaceAll`.  The `Nat` argument counts characters that belong
to an already-matched occurrence of the pattern and must be skipped. -/
def replAux (p r : List Char) : Nat → List Char → List Char
  | _, [] => []
  | k + 1, _ :: rest => replAux p r k rest
  | 0, c :: rest =>
    if !p.isEmpty && p.isPrefixOf (c :: rest) then
      r ++ replAux p r (p.length - 1) rest
    else
      c :: replAux p r 0 rest

/-- Rust `String::replace(p, r)`: replace every non-overlapping occurrence of
`p`, scanning left to right (the scan does not revisit replacement text).
The source only ever calls `replace` with a non-empty pattern, which is the
case this models; an empty pattern is treated as matching nothing. -/
def replaceAll (p r s : List Char) : List Char := replAux p r 0 s

/-- One ordered rule list applied by a fold, as in the table-driven cleaner
(`for (from, to) in swaps { cleaned = cleaned.replace(from, to); }`). -/
def applyRules (rules : List (List Char × List Char)) (s : List Char) : List Char :=
  rules.foldl (fun acc pr => replaceAll pr.1 pr.2 acc) s

/-- `clean_simple` from `lib.rs`: trim, two zero-width removals, then eleven
presentation-form/letter-variant swaps, in source order. -/
def clean_simple (input : List Char) : List Char :=
  let trimmed := rustTrim input
  let no_zwj := replaceAll ['\u200D'] [] trimmed
  let no_rlm := replaceAll ['\u200F'] [] no_zwj
  let swap_h_med := replaceAll ['\uFBA9'] ['\u0647'] no_rlm
  let swap_ch := replaceAll ['\uFB7D'] ['\u0686'] swap_h_med
  let swap_p_init := replaceAll ['\uFB58'] ['\u067E'] swap_ch
  let swap_p_med := replaceAll ['\uFB59'] ['\u067E'] swap_p_init
  let swap_zh := replaceAll ['\uFB8A'] ['\u0698'] swap_p_med
  let swap_g := replaceAll ['\uFB94'] ['\u06AF'] swap_zh
  let swap_zh_fin := replaceAll ['\uFB8B'] ['\u0698'] swap_g
  let swap_h_init := replaceAll ['\uFEEB'] ['\u0647'] swap_zh_fin
  let swap_madda := replaceAll ['\uFE81'] ['\u0622'] swap_h_init
  let swap_hamza_y := replaceAll ['\uFE8A'] ['\u0626'] swap_madda
  let swap_ngoeh := replaceAll ['\u06B1'] ['\u06AF'] swap_hamza_y
  let swap_h_do := replaceAll ['\u06BE'] ['\u0647'] swap_ngoeh
  let swap_dotless_b := replaceAll ['\u066E'] ['\u0628'] swap_h_do
  swap_dotless_b

/-- The (pattern, replacement) pairs of `clean_simple`, in application order. -/
def clean_simple_rules : List (List Char × List Char) :=
  [(['\u200D'], []), (['\u200F'], []),
   (['\uFBA9'], ['\u0647']), (['\uFB7D'], ['\u0686']), (['\uFB58'], ['\u067E']),
   (['\uFB59'], ['\u067E']), (['\uFB8A'], ['\u0698']), (['\uFB94'], ['\u06AF']),
   (['\uFB8B'], ['\u0698']), (['\uFEEB'], ['\u0647']), (['\uFE81'], ['\u0622']),
   (['\uFE8A'], ['\u0626']), (['\u06B1'], ['\u06AF']), (['\u06BE'], ['\u0647']),
   (['\u066E'], ['\u0628'])]

/-- `clean_defs` from `defs.rs`: the definition-body profile. -/
def clean_defs (input : List Char) : List Char :=
  let precleaned := clean_simple input
  let swap_ae := replaceAll ['\u04D4'] ['\u00C6'] precleaned
  let swap_quad_p := replaceAll ['\u0680'] ['\u067E'] swap_ae
  let swap_u_hat := replaceAll ['\u00FB'] ['\u016B'] swap_quad_p
  let swap_madda := replaceAll ['\uFE81'] ['\u0622'] swap_u_hat
  let swap_dot := replaceAll ['\u00B7'] ['\u02BB'] swap_madda
  let swap_lira := replaceAll ['\u20A4'] ['\u00A3'] swap_dot
  let swap_z_dot := replaceAll ['\u017C'] ['\u1E93'] swap_lira
  let swap_a_acute := replaceAll ['\u00C1'] ['A'] swap_z_dot
  let swap_e_breve := replaceAll ['e', '\u0306'] ['\u0115'] swap_a_acute
  let swap_breve := replaceAll ['\u0306'] ['\u02D8'] swap_e_breve
  let fix_lone_madda :=
    replaceAll ['/', '\u061F', '/']
      ['\u0640', '\u0640', '\u0653', '\u0640'] swap_breve
  fix_lone_madda

/-- The extra (pattern, replacement) pairs `clean_defs` applies after
`clean_simple`, in application order. -/
def defs_extra_rules : List (List Char × List Char) :=
  [(['\u04D4'], ['\u00C6']), (['\u0680'], ['\u067E']), (['\u00FB'], ['\u016B']),
   (['\uFE81'], ['\u0622']), (['\u00B7'], ['\u02BB']), (['\u20A4'], ['\u00A3']),
   (['\u017C'], ['\u1E93']), (['\u00C1'], ['A']),
   (['e', '\u0306'], ['\u0115']), (['\u0306'], ['\u02D8']),
   (['/', '\u061F', '/'], ['\u0640', '\u0640', '\u0653', '\u0640'])]

/-- `swaps_ordered` of `hw_full.rs` (optional-vowel-mark removals). -/
def hw_full_swaps_ordered : List (List Char × List Char) :=
  [([' ', '\u0650'], []), (['\u0650'], [])]

/-- `swaps_simple` of `hw_full.rs`. -/
def hw_full_swaps_simple : List (List Char × List Char) :=
  [(['\uFB7A'], ['\u0686']), (['"'], ['\u02BB', '\u02BB']),
   (['\u00E2'], ['\u0101']), (['\u0680'], ['\u067E']), (['\u1E61'], ['\u1E63']),
   (['\u1E33'], ['k']), (['\u2039'], ['\u012B']), (['\u00E0'], ['a'])]

/-- `swaps_complex` of `hw_full.rs`. -/
def hw_full_swaps_complex : List (List Char × List Char) :=
  [(['\u0627', '\u064E'], ['\u0622']), (['e', '\u0306'], ['\u0115']),
   (['\u06CC', '\u064E'], ['\u06CC']), ([' ', '\u064C'], ['\u064B']),
   ([' ', '\u064F'], ['\u064B'])]

/-- `clean_hw_full` from `hw_full.rs`: the full-headword profile, as three
ordered rule tables consumed by loops over `clean_simple`'s output. -/
def clean_hw_full (input : List Char) : List Char :=
  applyRules hw_full_swaps_complex
    (applyRules hw_full_swaps_simple
      (applyRules hw_full_swaps_ordered (clean_simple input)))

namespace LibRs

/-- `clean_hw_full` from `lib.rs`: the same profile written as a chain of
named local rebindings, one per substitution. -/
def clean_hw_full (input : List Char) : List Char :=
  let precleaned := clean_simple input
  let no_space_kasra := replaceAll [' ', '\u0650'] [] precleaned
  let no_kasra := replaceAll ['\u0650'] [] no_space_kasra
  let swap_ch := replaceAll ['\uFB7A'] ['\u0686'] no_kasra
  let swap_double_ayn := replaceAll ['"'] ['\u02BB', '\u02BB'] swap_ch
  let swap_a_hat := replaceAll ['\u00E2'] ['\u0101'] swap_double_ayn
  let swap_quad_p := replaceAll ['\u0680'] ['\u067E'] swap_a_hat
  let swap_dot_s := replaceAll ['\u1E61'] ['\u1E63'] swap_quad_p
  let swap_dot_k := replaceAll ['\u1E33'] ['k'] swap_dot_s
  let swap_left_arrow := replaceAll ['\u2039'] ['\u012B'] swap_dot_k
  let swap_a_grave := replaceAll ['\u00E0'] ['a'] swap_left_arrow
  let swap_alif_fatha := replaceAll ['\u0627', '\u064E'] ['\u0622'] swap_a_grave
  let swap_e_breve := replaceAll ['e', '\u0306'] ['\u0115'] swap_alif_fatha
  let fix_maris := replaceAll ['\u06CC', '\u064E'] ['\u06CC'] swap_e_breve
  let fix_muwajahatan := replaceAll [' ', '\u064C'] ['\u064B'] fix_maris
  let fix_yasiran := replaceAll [' ', '\u064F'] ['\u064B'] fix_muwajahatan
  fix_yasiran

end LibRs

/-- `clean_hw_per` from `hw_per.rs`: the primary-script-headword profile. -/
def clean_hw_per (input : List Char) : List Char :=
  let precleaned := clean_simple input
  let no_space_kasra := replaceAll [' ', '\u0650'] [] precleaned
  let no_kasra := replaceAll ['\u0650'] [] no_space_kasra
  let swap_alif_fatha := replaceAll ['\u0627', '\u064E'] ['\u0622'] no_kasra
  let fix_kasratayn := replaceAll [' ', '\u064D'] ['\u064D'] swap_alif_fatha
  let fix_muwajahatan := replaceAll [' ', '\u064C'] ['\u064B'] fix_kasratayn
  let fix_maris := replaceAll ['\u06CC', '\u064E'] ['\u06CC'] fix_muwajahatan
  let fix_yasiran := replaceAll [' ', '\u064F'] ['\u064B'] fix_maris
  fix_yasiran

/-- The extra (pattern, replacement) pairs `clean_hw_per` applies after
`clean_simple`, in application order. -/
def hw_per_extra_rules : List (List Char × List Char) :=
  [([' ', '\u0650'], []), (['\u0650'], []),
   (['\u0627', '\u064E'], ['\u0622']), ([' ', '\u064D'], ['\u064D']),
   ([' ', '\u064C'], ['\u064B']), (['\u06CC', '\u064E'], ['\u06CC']),
   ([' ', '\u064F'], ['\u064B'])]

/-- The swap table of `clean_hw_lat` from `hw_lat.rs`. -/
def hw_lat_swaps : List (List Char × List Char) :=
  [(['"'], ['\u2018', '\u2018']), (['\u00E0'], ['a']),
   (['\u00E2'], ['\u0101']), (['\u1E33'], ['k']), (['\u1E61'], ['\u1E63']),
   (['\u2039'], ['\u012B'])]

/-- `clean_hw_lat` from `hw_lat.rs`: the Latin-transliteration profile. -/
def clean_hw_lat (input : List Char) : List Char :=
  applyRules hw_lat_swaps (clean_simple input)

/-- Failure of the external markup renderer (`pandoc`), propagated by `?`. -/
inductive RenderError
  | failure
  deriving DecidableEq

/-- `get_hw_lat` from `hw_lat.rs`.  The parsed fragment's optional `hw i`
element is modelled as `Option (List Char)` (the `select(..).next()` result)
and the external renderer as the function argument `render`; when the element
is absent the literal text `N/A` is used and no error is raised. -/
def get_hw_lat (render : List Char → Except RenderError (List Char))
    (latinElem : Option (List Char)) : Except RenderError (List Char) :=
  match latinElem with
  | some latin =>
    match render latin with
    | Except.ok t => Except.ok (clean_hw_lat t)
    | Except.error e => Except.error e
  | none => Except.ok (clean_hw_lat ['N', '/', 'A'])

/-- Does the pattern `p` occur (as a contiguous sublist) anywhere in `s`? -/
def occursB (p : List Char) : List Char → Bool
  | [] => p.isPrefixOf []
  | c :: rest => p.isPrefixOf (c :: rest) || occursB p rest

/-- A pattern list for one profile: the patterns of the shared baseline rules
followed by the profile's extra rules. -/
def profile_patterns (extra : List (List Char × List Char)) : List (List Char) :=
  (clean_simple_rules ++ extra).map Prod.fst

/-- The three rule tables of the full-headword profile, concatenated in
application order. -/
def hw_full_extra_rules : List (List Char × List Char) :=
  hw_full_swaps_ordered ++ hw_full_swaps_simple ++ hw_full_swaps_complex

/-- The closed language taxonomy of `langs.rs`. -/
inductive Lang
  | Unmarked
  | Arabic
  | English
  | Greek
  | Hebrew
  | Hindi
  | Latin
  | Mongolian
  | Persian
  | Portuguese
  | Russian
  | Sanskrit
  | Spanish
  | Syriac
  | Turkish
  | Urdu
  | ArabicGreek
  | ArabicTurkish
  | PersianArabic
  | PersianGreek
  | PersianHindi
  | PersianMongolian
  | PersianRussian
  | PersianTurkish
  | PersianArabicGreek
  | PersianArabicHindi
  | PersianArabicTurkish
  deriving DecidableEq, Fintype

/-- `Lang::as_str`: the canonical display string of each variant. -/
def Lang.as_str : Lang → String
  | Lang.Unmarked => "Unmarked (i.e., Persian)"
  | Lang.Arabic => "Arabic"
  | Lang.English => "English"
  | Lang.Greek => "Greek"
  | Lang.Hebrew => "Hebrew"
  | Lang.Hindi => "Hindi"
  | Lang.Latin => "Latin"
  | Lang.Mongolian => "Mongolian"
  | Lang.Persian => "Persian"
  | Lang.Portuguese => "Portuguese"
  | Lang.Russian => "Russian"
  | Lang.Sanskrit => "Sanskrit"
  | Lang.Spanish => "Spanish"
  | Lang.Syriac => "Syriac"
  | Lang.Turkish => "Turkish"
  | Lang.Urdu => "Urdu"
  | Lang.ArabicGreek => "Arabic & Greek"
  | Lang.ArabicTurkish => "Arabic & Turkish"
  | Lang.PersianArabic => "Arabic & Persian"
  | Lang.PersianGreek => "Greek & Persian"
  | Lang.PersianHindi => "Hindi & Persian"
  | Lang.PersianMongolian => "Mongolian & Persian"
  | Lang.PersianRussian => "Persian & Russian"
  | Lang.PersianTurkish => "Persian & Turkish"
  | Lang.PersianArabicGreek => "Arabic & Greek & Persian"
  | Lang.PersianArabicHindi => "Arabic & Hindi & Persian"
  | Lang.PersianArabicTurkish => "Arabic & Persian & Turkish"

/-- The error type `Lang::from_str` declares (a unit struct in the source). -/
structure LangParseError where
  deriving DecidableEq

/-- The match of `Lang::from_str`, arm for arm: the 26 canonical display
strings of the marked variants, and a wildcard mapping everything else to
`Unmarked`. -/
def lang_from_str_match (s : String) : Lang :=
  if s = "Arabic" then Lang.Arabic
  else if s = "English" then Lang.English
  else if s = "Greek" then Lang.Greek
  else if s = "Hebrew" then Lang.Hebrew
  else if s = "Hindi" then Lang.Hindi
  else if s = "Latin" then Lang.Latin
  else if s = "Mongolian" then Lang.Mongolian
  else if s = "Persian" then Lang.Persian
  else if s = "Portuguese" then Lang.Portuguese
  else if s = "Russian" then Lang.Russian
  else if s = "Sanskrit" then Lang.Sanskrit
  else if s = "Spanish" then Lang.Spanish
  else if s = "Syriac" then Lang.Syriac
  else if s = "Turkish" then Lang.Turkish
  else if s = "Urdu" then Lang.Urdu
  else if s = "Arabic & Greek" then Lang.ArabicGreek
  else if s = "Arabic & Turkish" then Lang.ArabicTurkish
  else if s = "Arabic & Persian" then Lang.PersianArabic
  else if s = "Greek & Persian" then Lang.PersianGreek
  else if s = "Hindi & Persian" then Lang.PersianHindi
  else if s = "Mongolian & Persian" then Lang.PersianMongolian
  else if s = "Persian & Russian" then Lang.PersianRussian
  else if s = "Persian & Turkish" then Lang.PersianTurkish
  else if s = "Arabic & Greek & Persian" then Lang.PersianArabicGreek
  else if s = "Arabic & Hindi & Persian" then Lang.PersianArabicHindi
  else if s = "Arabic & Persian & Turkish" then Lang.PersianArabicTurkish
  else Lang.Unmarked

/-- `Lang::from_str`: total, always `Ok`. -/
def lang_from_str (s : String) : Except LangParseError Lang :=
  Except.ok (lang_from_str_match s)

deriving instance DecidableEq for Except

/-- The fatal classification failure: the source panics on an unrecognized
language tag; the panic is modelled as this error value carrying the
trimmed tag text. -/
inductive LangError
  | UnrecognizedLanguageTag (tag : List Char)
  deriving DecidableEq

/-- The lookup table of `get_lang`, arm for arm (including the documented
typo codes `B`, `a-macron`, `o`, etc.). -/
def lang_table (t : List Char) : Option Lang :=
  if t = ['A'] ∨ t = ['B'] then some Lang.Arabic
  else if t = ['E'] then some Lang.English
  else if t = ['G'] then some Lang.Greek
  else if t = ['H', 'E'] then some Lang.Hebrew
  else if t = ['H'] then some Lang.Hindi
  else if t = ['L'] then some Lang.Latin
  else if t = ['M'] then some Lang.Mongolian
  else if t = ['P'] then some Lang.Persian
  else if t = ['P', 'O', 'R', 'T'] then some Lang.Portuguese
  else if t = ['R'] then some Lang.Russian
  else if t = ['S'] then some Lang.Sanskrit
  else if t = ['S', 'P'] then some Lang.Spanish
  else if t = ['S', 'Y'] then some Lang.Syriac
  else if t = ['T'] then some Lang.Turkish
  else if t = ['U'] then some Lang.Urdu
  else if t = ['A', ' ', 'G'] then some Lang.ArabicGreek
  else if t = ['A', ' ', 'T'] then some Lang.ArabicTurkish
  else if t = ['a'] ∨ t = ['\u0101'] ∨ t = ['o'] ∨ t = ['A', ' ', 'a'] ∨ t = ['A', ' ', 'P'] then
    some Lang.PersianArabic
  else if t = ['g'] then some Lang.PersianGreek
  else if t = ['h'] then some Lang.PersianHindi
  else if t = ['m'] then some Lang.PersianMongolian
  else if t = ['r'] then some Lang.PersianRussian
  else if t = ['t'] then some Lang.PersianTurkish
  else if t = ['g', ' ', 'a'] then some Lang.PersianArabicGreek
  else if t = ['a', ' ', 'h'] then some Lang.PersianArabicHindi
  else if t = ['a', ' ', 't'] ∨ t = ['t', ' ', 'a'] ∨ t = ['a', ' ', 'p', ' ', 't'] then
    some Lang.PersianArabicTurkish
  else none

/-- `get_lang` from `langs.rs`.  The fragment's optional `lang` element is
modelled as `Option (List Char)` (the `select(..).next()` result, with the
element's collected text); the tag text is trimmed and stripped of all
trailing periods, then looked up; an unmatched non-`None` tag hits the
source's `panic!`, modelled as `Except.error`. -/
def get_lang (tag : Option (List Char)) : Except LangError Lang :=
  match tag with
  | none => Except.ok Lang.Unmarked
  | some text =>
    let trimmed := trimEndMatchesDot (rustTrim text)
    match lang_table trimmed with
    | some l => Except.ok l
    | none => Except.error (LangError.UnrecognizedLanguageTag trimmed)

def canonical_display_strings : List String :=
  ["Unmarked (i.e., Persian)", "Arabic", "English", "Greek", "Hebrew", "Hindi",
   "Latin", "Mongolian", "Persian", "Portuguese", "Russian", "Sanskrit",
   "Spanish", "Syriac", "Turkish", "Urdu", "Arabic & Greek", "Arabic & Turkish",
   "Arabic & Persian", "Greek & Persian", "Hindi & Persian",
   "Mongolian & Persian", "Persian & Russian", "Persian & Turkish",
   "Arabic & Greek & Persian", "Arabic & Hindi & Persian",
   "Arabic & Persian & Turkish"]

/-- Index of the first occurrence of `p` in `s` (start position), if any. -/
def findFirst (p : List Char) : List Char → Option Nat
  | [] => if p.isPrefixOf ([] : List Char) then some 0 else none
  | c :: rest =>
    if p.isPrefixOf (c :: rest) then some 0
    else (findFirst p rest).map (· + 1)

/-- Start index of the last occurrence of `p` in `s`, if any. -/
def findLast (p : List Char) : List Char → Option Nat
  | [] => if p.isPrefixOf ([] : List Char) then some 0 else none
  | c :: rest =>
    match findLast p rest with
    | some j => some (j + 1)
    | none => if p.isPrefixOf (c :: rest) then some 0 else none

/-- `Regex::new("<t>.*</t>").replace_all(s, "")` for newline-free text: the
greedy `.*` makes the single match run from the first occurrence of the
opening tag to the end of the last occurrence of the closing tag (no later
match can complete, since no closing tag remains), so `replace_all` removes
that one span; when either tag is missing the string is unchanged. -/
def stripGreedy (opTag clTag s : List Char) : List Char :=
  match findFirst opTag s, findLast clTag s with
  | some i, some j =>
    if i + opTag.length ≤ j then s.take i ++ s.drop (j + clTag.length) else s
  | _, _ => s

def cOpenTag : List Char := ['<', 'c', '>']

def cCloseTag : List Char := ['<', '/', 'c', '>']

def hwOpenTag : List Char := ['<', 'h', 'w', '>']

def hwCloseTag : List Char := ['<', '/', 'h', 'w', '>']

def langOpenTag : List Char := ['<', 'l', 'a', 'n', 'g', '>']

def langCloseTag : List Char := ['<', '/', 'l', 'a', 'n', 'g', '>']

/-- The regex-stripping phase of `except_headword` from `defs.rs`: remove the
citation-marker span, then the headword span, then the language-tag span; the
remainder is what is handed to the renderer and `clean_defs` to become the
definition body. -/
def except_headword_strip (input : List Char) : List Char :=
  let without_c := stripGreedy cOpenTag cCloseTag input
  let without_hw := stripGreedy hwOpenTag hwCloseTag without_c
  let without_lang := stripGreedy langOpenTag langCloseTag without_hw
  without_lang

/-- `p` starts at no position of `s` (positions past the end included). -/
def NoStart (p s : List Char) : Prop := ∀ k : Nat, p.isPrefixOf (s.drop k) = false

/-- A replacement whose pattern occurs nowhere is the identity. -/
theorem replaceAll_not_occurs (p r : List Char) :
    ∀ s : List Char, occursB p s = false → replaceAll p r s = s := by
  intro s
  induction s with
  | nil => intro _; rfl
  | cons c rest ih =>
    intro h
    simp only [occursB, Bool.or_eq_false_iff] at h
    show replAux p r 0 (c :: rest) = c :: rest
    simp only [replAux, h.1, Bool.and_false, Bool.false_eq_true, if_false]
    exact congrArg (c :: ·) (ih h.2)

/-- A whole rule table is the identity on a string in which none of its
patterns occurs. -/
theorem applyRules_fixed :
    ∀ (rules : List (List Char × List Char)) (s : List Char),
      (∀ pr ∈ rules, occursB pr.1 s = false) → applyRules rules s = s := by
  intro rules
  induction rules with
  | nil => intro s _; rfl
  | cons pr rest ih =>
    intro s h
    show applyRules rest (replaceAll pr.1 pr.2 s) = s
    rw [replaceAll_not_occurs pr.1 pr.2 s (h pr (List.mem_cons_self pr rest))]
    exact ih s (fun q hq => h q (List.mem_cons_of_mem pr hq))

/-- `clean_defs` is the baseline rule table followed by its extra table,
folded over the trimmed input. -/
theorem clean_defs_bridge (s : List Char) :
    clean_defs s
      = applyRules defs_extra_rules (applyRules clean_simple_rules (rustTrim s)) := by
  simp only [clean_defs, clean_simple, applyRules, List.foldl,
    defs_extra_rules, clean_simple_rules]

/-- `clean_hw_full` is the baseline rule table followed by its three extra
tables, folded over the trimmed input. -/
theorem clean_hw_full_bridge (s : List Char) :
    clean_hw_full s
      = applyRules hw_full_extra_rules (applyRules clean_simple_rules (rustTrim s)) := by
  simp only [clean_hw_full, clean_simple, applyRules, List.foldl,
    hw_full_extra_rules, hw_full_swaps_ordered, hw_full_swaps_simple,
    hw_full_swaps_complex, clean_simple_rules, List.append_assoc, List.cons_append,
    List.nil_append]

/-- `clean_hw_per` is the baseline rule table followed by its extra table,
folded over the trimmed input. -/
theorem clean_hw_per_bridge (s : List Char) :
    clean_hw_per s
      = applyRules hw_per_extra_rules (applyRules clean_simple_rules (rustTrim s)) := by
  simp only [clean_hw_per, clean_simple, applyRules, List.foldl,
    hw_per_extra_rules, clean_simple_rules]

/-- `clean_hw_lat` is the baseline rule table followed by its swap table,
folded over the trimmed input. -/
theorem clean_hw_lat_bridge (s : List Char) :
    clean_hw_lat s
      = applyRules hw_lat_swaps (applyRules clean_simple_rules (rustTrim s)) := by
  simp only [clean_hw_lat, clean_simple, applyRules, List.foldl,
    hw_lat_swaps, clean_simple_rules]

/-- A trimmed string in which no pattern of the definition-body profile
occurs is a fixed point of `clean_defs`. -/
theorem clean_defs_fixed (s : List Char) (ht : rustTrim s = s)
    (hp : ∀ q ∈ profile_patterns defs_extra_rules, occursB q s = false) :
    clean_defs s = s := by
  rw [clean_defs_bridge, ht,
    applyRules_fixed clean_simple_rules s (fun pr hpr =>
      hp pr.1 (List.mem_map_of_mem Prod.fst (List.mem_append_left _ hpr)))]
  exact applyRules_fixed defs_extra_rules s (fun pr hpr =>
    hp pr.1 (List.mem_map_of_mem Prod.fst (List.mem_append_right _ hpr)))

/-- A trimmed string in which no pattern of the full-headword profile occurs
is a fixed point of `clean_hw_full`. -/
theorem clean_hw_full_fixed (s : List Char) (ht : rustTrim s = s)
    (hp : ∀ q ∈ profile_patterns hw_full_extra_rules, occursB q s = false) :
    clean_hw_full s = s := by
  rw [clean_hw_full_bridge, ht,
    applyRules_fixed clean_simple_rules s (fun pr hpr =>
      hp pr.1 (List.mem_map_of_mem Prod.fst (List.mem_append_left _ hpr)))]
  exact applyRules_fixed hw_full_extra_rules s (fun pr hpr =>
    hp pr.1 (List.mem_map_of_mem Prod.fst (List.mem_append_right _ hpr)))

/-- A trimmed string in which no pattern of the primary-script-headword
profile occurs is a fixed point of `clean_hw_per`. -/
theorem clean_hw_per_fixed (s : List Char) (ht : rustTrim s = s)
    (hp : ∀ q ∈ profile_patterns hw_per_extra_rules, occursB q s = false) :
    clean_hw_per s = s := by
  rw [clean_hw_per_bridge, ht,
    applyRules_fixed clean_simple_rules s (fun pr hpr =>
      hp pr.1 (List.mem_map_of_mem Prod.fst (List.mem_append_left _ hpr)))]
  exact applyRules_fixed hw_per_extra_rules s (fun pr hpr =>
    hp pr.1 (List.mem_map_of_mem Prod.fst (List.mem_append_right _ hpr)))

/-- A trimmed string in which no pattern of the Latin-headword profile occurs
is a fixed point of `clean_hw_lat`. -/
theorem clean_hw_lat_fixed (s : List Char) (ht : rustTrim s = s)
    (hp : ∀ q ∈ profile_patterns hw_lat_swaps, occursB q s = false) :
    clean_hw_lat s = s := by
  rw [clean_hw_lat_bridge, ht,
    applyRules_fixed clean_simple_rules s (fun pr hpr =>
      hp pr.1 (List.mem_map_of_mem Prod.fst (List.mem_append_left _ hpr)))]
  exact applyRules_fixed hw_lat_swaps s (fun pr hpr =>
    hp pr.1 (List.mem_map_of_mem Prod.fst (List.mem_append_right _ hpr)))

/-- C1 (amended): cleaning is idempotent at every input whose once-cleaned
form is trimmed and contains no occurrence of any of the profile's rule
patterns.  (Unconditional idempotence fails: a removal can expose boundary
whitespace that only the next pass trims, and a rule such as
ya+fatha -> ya can leave a fresh occurrence of its own pattern.) -/
theorem clean_idempotent_on_canonical (x : List Char) :
    (rustTrim (clean_defs x) = clean_defs x →
      (∀ q ∈ profile_patterns defs_extra_rules, occursB q (clean_defs x) = false) →
      clean_defs (clean_defs x) = clean_defs x) ∧
    (rustTrim (clean_hw_full x) = clean_hw_full x →
      (∀ q ∈ profile_patterns hw_full_extra_rules, occursB q (clean_hw_full x) = false) →
      clean_hw_full (clean_hw_full x) = clean_hw_full x) ∧
    (rustTrim (clean_hw_per x) = clean_hw_per x →
      (∀ q ∈ profile_patterns hw_per_extra_rules, occursB q (clean_hw_per x) = false) →
      clean_hw_per (clean_hw_per x) = clean_hw_per x) ∧
    (rustTrim (clean_hw_lat x) = clean_hw_lat x →
      (∀ q ∈ profile_patterns hw_lat_swaps, occursB q (clean_hw_lat x) = false) →
      clean_hw_lat (clean_hw_lat x) = clean_hw_lat x) :=
  ⟨fun ht hp => clean_defs_fixed (clean_defs x) ht hp,
   fun ht hp => clean_hw_full_fixed (clean_hw_full x) ht hp,
   fun ht hp => clean_hw_per_fixed (clean_hw_per x) ht hp,
   fun ht hp => clean_hw_lat_fixed (clean_hw_lat x) ht hp⟩

/-- Witness for C1 (amended) at the concrete input `"a"`: the side conditions
hold and each profile is idempotent there. -/
theorem clean_idempotent_on_canonical_witness :
    (rustTrim (clean_defs ['a']) = clean_defs ['a'] ∧
      (∀ q ∈ profile_patterns defs_extra_rules, occursB q (clean_defs ['a']) = false) ∧
      clean_defs (clean_defs ['a']) = clean_defs ['a']) ∧
    (rustTrim (clean_hw_full ['a']) = clean_hw_full ['a'] ∧
      (∀ q ∈ profile_patterns hw_full_extra_rules, occursB q (clean_hw_full ['a']) = false) ∧
      clean_hw_full (clean_hw_full ['a']) = clean_hw_full ['a']) ∧
    (rustTrim (clean_hw_per ['a']) = clean_hw_per ['a'] ∧
      (∀ q ∈ profile_patterns hw_per_extra_rules, occursB q (clean_hw_per ['a']) = false) ∧
      clean_hw_per (clean_hw_per ['a']) = clean_hw_per ['a']) ∧
    (rustTrim (clean_hw_lat ['a']) = clean_hw_lat ['a'] ∧
      (∀ q ∈ profile_patterns hw_lat_swaps, occursB q (clean_hw_lat ['a']) = false) ∧
      clean_hw_lat (clean_hw_lat ['a']) = clean_hw_lat ['a']) :=
  ⟨⟨by decide, by decide, (clean_idempotent_on_canonical ['a']).1 (by decide) (by decide)⟩,
   ⟨by decide, by decide, (clean_idempotent_on_canonical ['a']).2.1 (by decide) (by decide)⟩,
   ⟨by decide, by decide, (clean_idempotent_on_canonical ['a']).2.2.1 (by decide) (by decide)⟩,
   ⟨by decide, by decide, (clean_idempotent_on_canonical ['a']).2.2.2 (by decide) (by decide)⟩⟩

/-- C1 (counterexample): every profile has an input at which cleaning twice
differs from cleaning once.  For the two headword profiles the rule
ya+fatha -> ya applied to ya+fatha+fatha leaves ya+fatha, which a second
pass rewrites again; for the definition-body and Latin profiles removing a
zero-width joiner (U+200D) exposes a leading space that only the second
pass trims. -/
theorem clean_idempotent_counterexample :
    clean_hw_full (clean_hw_full ['\u06CC', '\u064E', '\u064E'])
        ≠ clean_hw_full ['\u06CC', '\u064E', '\u064E'] ∧
    clean_hw_per (clean_hw_per ['\u06CC', '\u064E', '\u064E'])
        ≠ clean_hw_per ['\u06CC', '\u064E', '\u064E'] ∧
    clean_defs (clean_defs ['\u200D', ' ', 'a']) ≠ clean_defs ['\u200D', ' ', 'a'] ∧
    clean_hw_lat (clean_hw_lat ['\u200D', ' ', 'a']) ≠ clean_hw_lat ['\u200D', ' ', 'a'] := by
  decide

/-- C6: under both profiles that contain the compound-breve rule, the
two-code-point sequence U+0065 U+0306 collapses to the single code point
U+0115; in the definition-body profile the compound rule fires before the
bare-breve rule, so the result is not U+0065 U+02D8. -/
theorem compound_breve_before_bare_breve :
    clean_defs ['e', '\u0306'] = ['\u0115'] ∧
    clean_hw_full ['e', '\u0306'] = ['\u0115'] ∧
    clean_defs ['e', '\u0306'] ≠ ['e', '\u02D8'] := by
  decide

/-- C8: a fragment with no Latin-transliteration sub-element yields the
literal text `N/A` (no error), and the Latin cleaning rules leave `N/A`
unchanged. -/
theorem get_hw_lat_missing_is_na :
    (∀ render : List Char → Except RenderError (List Char),
      get_hw_lat render none = Except.ok ['N', '/', 'A']) ∧
    clean_hw_lat ['N', '/', 'A'] = ['N', '/', 'A'] := by
  refine ⟨fun render => ?_, by decide⟩
  show Except.ok (clean_hw_lat ['N', '/', 'A']) = Except.ok ['N', '/', 'A']
  rw [show clean_hw_lat ['N', '/', 'A'] = ['N', '/', 'A'] from by decide]

/-- C9: the chained-rebinding cleaner of `lib.rs` and the table-driven
cleaner of `hw_full.rs` compute the same function on every input. -/
theorem clean_hw_full_implementations_agree :
    ∀ input : List Char, LibRs.clean_hw_full input = clean_hw_full input := by
  intro input
  simp only [clean_hw_full, LibRs.clean_hw_full, applyRules, List.foldl,
    hw_full_swaps_ordered, hw_full_swaps_simple, hw_full_swaps_complex]

theorem dropWhile_replicate_append (p : Char → Bool) (c : Char) (hc : p c = true)
    (n : Nat) (l : List Char) :
    List.dropWhile p (List.replicate n c ++ l) = List.dropWhile p l := by
  induction n with
  | zero => rfl
  | succ k ih =>
    rw [List.replicate_succ, List.cons_append, List.dropWhile_cons_of_pos hc]
    exact ih

theorem dropWhile_ws_dots (n : Nat) :
    List.dropWhile rustIsWhitespace (List.replicate n '.' ++ ['A'])
      = List.replicate n '.' ++ ['A'] := by
  cases n with
  | zero => decide
  | succ k =>
    rw [List.replicate_succ, List.cons_append, List.dropWhile_cons_of_neg (by decide)]

theorem get_lang_strips_all_trailing_periods (n : Nat) :
    get_lang (some ([' ', 'A'] ++ List.replicate n '.' ++ [' '])) = Except.ok Lang.Arabic := by
  have h1 : rustTrim ([' ', 'A'] ++ List.replicate n '.' ++ [' '])
      = 'A' :: List.replicate n '.' := by
    unfold rustTrim
    rw [List.append_assoc, List.cons_append, List.cons_append, List.nil_append,
      List.dropWhile_cons_of_pos (by decide), List.dropWhile_cons_of_neg (by decide),
      List.reverse_cons, List.reverse_append, List.reverse_replicate]
    simp only [List.reverse_cons, List.reverse_nil, List.nil_append, List.append_assoc,
      List.singleton_append, List.cons_append]
    rw [List.dropWhile_cons_of_pos (by decide), dropWhile_ws_dots,
      List.reverse_append, List.reverse_replicate]
    rfl
  have h2 : trimEndMatchesDot ('A' :: List.replicate n '.') = ['A'] := by
    unfold trimEndMatchesDot
    rw [List.reverse_cons, List.reverse_replicate,
      dropWhile_replicate_append _ '.' (by decide) n ['A']]
    decide
  simp only [get_lang, h1, h2]
  decide

theorem lang_roundtrip_amended :
    (∀ v : Lang, lang_from_str (Lang.as_str v) = Except.ok v) ∧ Fintype.card Lang = 27 :=
  ⟨by decide, by decide⟩

theorem lang_variant_count_counterexample :
    Fintype.card Lang = 27 ∧ Fintype.card Lang ≠ 28 := by decide

theorem lang_from_str_total_never_errors :
    (∀ s : String, ∃ v : Lang, lang_from_str s = Except.ok v) ∧
    lang_from_str "Unmarked (i.e., Persian)" = Except.ok Lang.Unmarked ∧
    ∀ s : String, s ∉ canonical_display_strings → lang_from_str s = Except.ok Lang.Unmarked := by
  refine ⟨fun s => ⟨lang_from_str_match s, rfl⟩, by decide, fun s h => ?_⟩
  simp only [canonical_display_strings, List.mem_cons, List.not_mem_nil, or_false,
    not_or] at h
  obtain ⟨h0, h1, h2, h3, h4, h5, h6, h7, h8, h9, h10, h11, h12, h13, h14, h15,
    h16, h17, h18, h19, h20, h21, h22, h23, h24, h25, h26⟩ := h
  show Except.ok (lang_from_str_match s) = Except.ok Lang.Unmarked
  unfold lang_from_str_match
  rw [if_neg h1, if_neg h2, if_neg h3, if_neg h4, if_neg h5, if_neg h6, if_neg h7,
    if_neg h8, if_neg h9, if_neg h10, if_neg h11, if_neg h12, if_neg h13,
    if_neg h14, if_neg h15, if_neg h16, if_neg h17, if_neg h18, if_neg h19,
    if_neg h20, if_neg h21, if_neg h22, if_neg h23, if_neg h24, if_neg h25,
    if_neg h26]

theorem lang_from_str_total_never_errors_witness :
    "garbage" ∉ canonical_display_strings ∧
    lang_from_str "garbage" = Except.ok Lang.Unmarked :=
  ⟨by decide, lang_from_str_total_never_errors.2.2 "garbage" (by decide)⟩

theorem get_lang_double_period_counterexample :
    get_lang (some ['A', '.', '.']) = Except.ok Lang.Arabic ∧
    get_lang (some ['A', '.', '.'])
      ≠ Except.error (LangError.UnrecognizedLanguageTag ['A', '.']) := by
  decide

theorem get_lang_strips_witness :
    get_lang (some [' ', 'A', '.', '.', ' ']) = Except.ok Lang.Arabic :=
  get_lang_strips_all_trailing_periods 2

theorem get_lang_empty_tag_counterexample :
    get_lang (some []) = Except.error (LangError.UnrecognizedLanguageTag []) ∧
    get_lang (some [' ']) = Except.error (LangError.UnrecognizedLanguageTag []) ∧
    get_lang (some []) ≠ Except.ok Lang.Unmarked := by
  decide

theorem get_lang_empty_tag_behavior :
    get_lang none = Except.ok Lang.Unmarked ∧
    ∀ t : List Char, rustTrim t = [] →
      get_lang (some t) = Except.error (LangError.UnrecognizedLanguageTag []) := by
  refine ⟨rfl, fun t ht => ?_⟩
  simp only [get_lang, ht]
  decide

theorem get_lang_empty_tag_witness :
    rustTrim [' '] = [] ∧
    get_lang (some [' ']) = Except.error (LangError.UnrecognizedLanguageTag []) :=
  ⟨by decide, get_lang_empty_tag_behavior.2 [' '] (by decide)⟩

theorem get_lang_unrecognized_fatal (t : List Char)
    (_hne : trimEndMatchesDot (rustTrim t) ≠ [])
    (h2 : lang_table (trimEndMatchesDot (rustTrim t)) = none) :
    get_lang (some t)
      = Except.error (LangError.UnrecognizedLanguageTag (trimEndMatchesDot (rustTrim t))) := by
  simp only [get_lang, h2]

theorem get_lang_unrecognized_fatal_witness :
    trimEndMatchesDot (rustTrim ['X', 'Y']) ≠ [] ∧
    lang_table (trimEndMatchesDot (rustTrim ['X', 'Y'])) = none ∧
    get_lang (some ['X', 'Y'])
      = Except.error (LangError.UnrecognizedLanguageTag (trimEndMatchesDot (rustTrim ['X', 'Y']))) :=
  ⟨by decide, by decide, get_lang_unrecognized_fatal ['X', 'Y'] (by decide) (by decide)⟩

theorem isPrefixOf_cons_cons (a b : Char) (as bs : List Char) :
    (a :: as).isPrefixOf (b :: bs) = (a == b && as.isPrefixOf bs) := rfl

theorem isPrefixOf_self_append (p w : List Char) : p.isPrefixOf (p ++ w) = true := by
  induction p with
  | nil => exact List.isPrefixOf_nil_left
  | cons a as ih =>
    rw [List.cons_append, isPrefixOf_cons_cons, beq_self_eq_true, Bool.true_and]
    exact ih

theorem isPrefixOf_append_left :
    ∀ (p t y : List Char), p.length ≤ t.length → p.isPrefixOf (t ++ y) = p.isPrefixOf t := by
  intro p
  induction p with
  | nil => intro t y _; rw [List.isPrefixOf_nil_left, List.isPrefixOf_nil_left]
  | cons a as ih =>
    intro t y hlen
    cases t with
    | nil => simp at hlen
    | cons b ts =>
      rw [List.cons_append, isPrefixOf_cons_cons, isPrefixOf_cons_cons,
        ih ts y (Nat.le_of_succ_le_succ (by simpa using hlen))]

theorem noStart_nil {p : List Char} {a : Char} {p' : List Char} (hp : p = a :: p') :
    NoStart p [] := by
  intro k
  rw [List.drop_nil, hp]
  rfl

theorem noStart_of_clean {p : List Char} {a : Char} {p' : List Char} (hp : p = a :: p') :
    ∀ x : List Char, (∀ c ∈ x, c ≠ a) → NoStart p x := by
  intro x
  induction x with
  | nil => intro _; exact noStart_nil hp
  | cons c rest ih =>
    intro hx k
    cases k with
    | zero =>
      rw [List.drop_zero, hp, isPrefixOf_cons_cons,
        beq_eq_false_iff_ne.mpr (Ne.symm (hx c (List.mem_cons_self c rest))), Bool.false_and]
    | succ m =>
      rw [List.drop_succ_cons]
      exact ih (fun d hd => hx d (List.mem_cons_of_mem c hd)) m

theorem noStart_append {p : List Char} {a : Char} {p' : List Char} (hp : p = a :: p') :
    ∀ x y : List Char, (∀ c ∈ x, c ≠ a) → NoStart p y → NoStart p (x ++ y) := by
  intro x
  induction x with
  | nil => intro y _ hy; simpa using hy
  | cons c rest ih =>
    intro y hx hy k
    cases k with
    | zero =>
      rw [List.cons_append, List.drop_zero, hp, isPrefixOf_cons_cons,
        beq_eq_false_iff_ne.mpr (Ne.symm (hx c (List.mem_cons_self c rest))), Bool.false_and]
    | succ m =>
      rw [List.cons_append, List.drop_succ_cons]
      exact ih y (fun d hd => hx d (List.mem_cons_of_mem c hd)) hy m

/-- Prepend one whole tag segment `t` (whose tail contains no `a`, and which
`p` does not match at offset zero) to a region `p` starts nowhere in. -/
theorem noStart_seg {p : List Char} {a : Char} {p' : List Char} (hp : p = a :: p')
    {t y : List Char} (h0 : p.isPrefixOf (t ++ y) = false)
    (ht : ∀ c ∈ t.drop 1, c ≠ a) (hy : NoStart p y) : NoStart p (t ++ y) := by
  intro k
  cases t with
  | nil => simpa using hy k
  | cons c t' =>
    cases k with
    | zero => simpa using h0
    | succ m =>
      rw [List.cons_append, List.drop_succ_cons]
      exact noStart_append hp t' y (by simpa using ht) hy m

theorem noStart_before {p : List Char} {a : Char} {p' : List Char} (hp : p = a :: p') :
    ∀ (x z : List Char), (∀ c ∈ x, c ≠ a) →
      ∀ k, k < x.length → p.isPrefixOf ((x ++ z).drop k) = false := by
  intro x
  induction x with
  | nil => intro z _ k hk; exact absurd hk (Nat.not_lt_zero k)
  | cons c rest ih =>
    intro z hx k hk
    cases k with
    | zero =>
      rw [List.cons_append, List.drop_zero, hp, isPrefixOf_cons_cons,
        beq_eq_false_iff_ne.mpr (Ne.symm (hx c (List.mem_cons_self c rest))), Bool.false_and]
    | succ m =>
      rw [List.cons_append, List.drop_succ_cons]
      exact ih z (fun d hd => hx d (List.mem_cons_of_mem c hd)) m (Nat.lt_of_succ_lt_succ hk)

theorem findFirst_eq :
    ∀ (s p : List Char) (i : Nat),
      p.isPrefixOf (s.drop i) = true →
      (∀ k, k < i → p.isPrefixOf (s.drop k) = false) →
      findFirst p s = some i := by
  intro s
  induction s with
  | nil =>
    intro p i hocc hmin
    cases i with
    | zero =>
      rw [List.drop_nil] at hocc
      simp [findFirst, hocc]
    | succ m =>
      have h0 := hmin 0 (Nat.succ_pos m)
      rw [List.drop_nil] at hocc h0
      rw [hocc] at h0
      exact Bool.noConfusion h0
  | cons c rest ih =>
    intro p i hocc hmin
    cases i with
    | zero =>
      rw [List.drop_zero] at hocc
      simp [findFirst, hocc]
    | succ m =>
      have h0 := hmin 0 (Nat.succ_pos m)
      rw [List.drop_zero] at h0
      have hrec := ih p m (by simpa using hocc) (fun k hk => by
        have hs := hmin (k + 1) (Nat.succ_lt_succ hk)
        simpa using hs)
      simp [findFirst, h0, hrec]

theorem findLast_eq_none :
    ∀ s p : List Char, (∀ k, p.isPrefixOf (s.drop k) = false) → findLast p s = none := by
  intro s
  induction s with
  | nil =>
    intro p h
    have h0 := h 0
    rw [List.drop_nil] at h0
    simp [findLast, h0]
  | cons c rest ih =>
    intro p h
    have hrest := ih p (fun k => by have hs := h (k + 1); simpa using hs)
    have h0 := h 0
    rw [List.drop_zero] at h0
    simp [findLast, hrest, h0]

theorem findLast_eq :
    ∀ (s p : List Char) (j : Nat),
      p.isPrefixOf (s.drop j) = true →
      (∀ k, j < k → p.isPrefixOf (s.drop k) = false) →
      findLast p s = some j := by
  intro s
  induction s with
  | nil =>
    intro p j hocc hmax
    have h1 := hmax (j + 1) (Nat.lt_succ_self j)
    rw [List.drop_nil] at hocc h1
    rw [hocc] at h1
    exact Bool.noConfusion h1
  | cons c rest ih =>
    intro p j hocc hmax
    cases j with
    | zero =>
      have hrest : findLast p rest = none :=
        findLast_eq_none rest p (fun k => by
          have hs := hmax (k + 1) (Nat.succ_pos k)
          simpa using hs)
      rw [List.drop_zero] at hocc
      simp [findLast, hrest, hocc]
    | succ m =>
      have hrest : findLast p rest = some m :=
        ih p m (by simpa using hocc) (fun k hk => by
          have hs := hmax (k + 1) (Nat.succ_lt_succ hk)
          simpa using hs)
      simp [findLast, hrest]

theorem stripGreedy_eq_of_finds {opTag clTag s : List Char} {i j : Nat}
    (hf : findFirst opTag s = some i) (hl : findLast clTag s = some j) :
    stripGreedy opTag clTag s
      = if i + opTag.length ≤ j then s.take i ++ s.drop (j + clTag.length) else s := by
  unfold stripGreedy
  rw [hf, hl]

/-- Greedy single-span stripping on a string laid out as
`x ++ op ++ m ++ cl ++ y`: when the opening tag cannot start inside `x`, and
the closing tag starts nowhere in `y` (the middle `m` is arbitrary — any
closing tags inside it are swallowed by the greedy match), the whole span
from the written opening tag to the written closing tag is removed. -/
theorem stripGreedy_layout {opTag clTag o' : List Char} {a2 : Char} {cl' : List Char}
    (hop : opTag = '<' :: o') (hcl : clTag = '<' :: a2 :: cl')
    (hcl2 : ∀ c ∈ a2 :: cl', c ≠ '<')
    (x m y : List Char) (hx : ∀ c ∈ x, c ≠ '<') (hy : NoStart clTag y) :
    stripGreedy opTag clTag (x ++ (opTag ++ (m ++ (clTag ++ y)))) = x ++ y := by
  have hxdrop : (x ++ (opTag ++ (m ++ (clTag ++ y)))).drop x.length
      = opTag ++ (m ++ (clTag ++ y)) := List.drop_left x _
  have hff : findFirst opTag (x ++ (opTag ++ (m ++ (clTag ++ y)))) = some x.length := by
    apply findFirst_eq
    · rw [hxdrop]
      exact isPrefixOf_self_append opTag _
    · intro k hk
      exact noStart_before hop x _ hx k hk
  have hjdrop : (x ++ (opTag ++ (m ++ (clTag ++ y)))).drop (x.length + (opTag.length + m.length))
      = clTag ++ y := by
    have hassoc : x ++ (opTag ++ (m ++ (clTag ++ y))) = (x ++ (opTag ++ m)) ++ (clTag ++ y) := by
      simp [List.append_assoc]
    rw [hassoc]
    apply List.drop_left'
    simp [List.length_append]
  have hfl : findLast clTag (x ++ (opTag ++ (m ++ (clTag ++ y))))
      = some (x.length + (opTag.length + m.length)) := by
    apply findLast_eq
    · rw [hjdrop]
      exact isPrefixOf_self_append clTag _
    · intro k hk
      have e1 : (x ++ (opTag ++ (m ++ (clTag ++ y)))).drop
          (x.length + (opTag.length + m.length) + 1) = (a2 :: cl') ++ y := by
        have h := congrArg (List.drop 1) hjdrop
        rw [List.drop_drop] at h
        rw [h, hcl]
        simp
      have hsplit : (x.length + (opTag.length + m.length) + 1)
          + (k - (x.length + (opTag.length + m.length) + 1)) = k := by omega
      have hstep : (x ++ (opTag ++ (m ++ (clTag ++ y)))).drop k
          = ((a2 :: cl') ++ y).drop (k - (x.length + (opTag.length + m.length) + 1)) := by
        calc (x ++ (opTag ++ (m ++ (clTag ++ y)))).drop k
            = ((x ++ (opTag ++ (m ++ (clTag ++ y)))).drop
                (x.length + (opTag.length + m.length) + 1)).drop
                (k - (x.length + (opTag.length + m.length) + 1)) := by
              rw [List.drop_drop, hsplit]
          _ = ((a2 :: cl') ++ y).drop (k - (x.length + (opTag.length + m.length) + 1)) := by
              rw [e1]
      rw [hstep]
      exact noStart_append hcl (a2 :: cl') y hcl2 hy _
  rw [stripGreedy_eq_of_finds hff hfl,
    if_pos (by omega : x.length + opTag.length ≤ x.length + (opTag.length + m.length))]
  have htake : (x ++ (opTag ++ (m ++ (clTag ++ y)))).take x.length = x := List.take_left x _
  have hdrop2 : (x ++ (opTag ++ (m ++ (clTag ++ y)))).drop
      (x.length + (opTag.length + m.length) + clTag.length) = y := by
    have hassoc2 : x ++ (opTag ++ (m ++ (clTag ++ y))) = (x ++ (opTag ++ (m ++ clTag))) ++ y := by
      simp [List.append_assoc]
    rw [hassoc2]
    apply List.drop_left'
    simp only [List.length_append]
    omega
  rw [htake, hdrop2]

/-- C7: on a fragment laid out as filler, citation span, filler, headword
span, filler, language-tag span, filler (fillers and the headword and
language-tag span interiors free of tag-opening characters; the citation
span's interior is arbitrary), `except_headword_strip` removes each span
from its
first opening tag through its last matching closing tag, greedily, one pass
per kind, in the order citation-marker, headword, language-tag, and the
remainder (the concatenated fillers) becomes the definition body.  The
greediness is visible in `stripGreedy_layout`'s arbitrary middle segment:
everything between the first opening and last closing tag of a kind goes.
The newline-freedom hypotheses on the span interiors keep the statement in
the domain where `stripGreedy` models the source's regexes faithfully (the
regex `.` does not match a newline). -/
theorem except_headword_strip_order (p0 a p1 b p2 d p3 : List Char)
    (hp0 : ∀ c ∈ p0, c ≠ '<') (hp1 : ∀ c ∈ p1, c ≠ '<')
    (hb : ∀ c ∈ b, c ≠ '<') (hp2 : ∀ c ∈ p2, c ≠ '<') (hd : ∀ c ∈ d, c ≠ '<')
    (hp3 : ∀ c ∈ p3, c ≠ '<')
    (_hna : ∀ c ∈ a, c ≠ '\u000A') (_hnb : ∀ c ∈ b, c ≠ '\u000A')
    (_hnd : ∀ c ∈ d, c ≠ '\u000A') :
    except_headword_strip
        (p0 ++ cOpenTag ++ a ++ cCloseTag ++ p1 ++ hwOpenTag ++ b ++ hwCloseTag
          ++ p2 ++ langOpenTag ++ d ++ langCloseTag ++ p3)
      = p0 ++ p1 ++ p2 ++ p3 := by
  have hcO : cOpenTag = '<' :: ['c', '>'] := rfl
  have hcC : cCloseTag = '<' :: '/' :: ['c', '>'] := rfl
  have hhO : hwOpenTag = '<' :: ['h', 'w', '>'] := rfl
  have hhC : hwCloseTag = '<' :: '/' :: ['h', 'w', '>'] := rfl
  have hlO : langOpenTag = '<' :: ['l', 'a', 'n', 'g', '>'] := rfl
  have hlC : langCloseTag = '<' :: '/' :: ['l', 'a', 'n', 'g', '>'] := rfl
  have n0 : NoStart cCloseTag p3 := noStart_of_clean hcC p3 hp3
  have n1 : NoStart cCloseTag (langCloseTag ++ p3) :=
    noStart_seg hcC (by rw [isPrefixOf_append_left _ _ _ (by decide)]; decide) (by decide) n0
  have n2 : NoStart cCloseTag (d ++ (langCloseTag ++ p3)) :=
    noStart_append hcC d _ hd n1
  have n3 : NoStart cCloseTag (langOpenTag ++ (d ++ (langCloseTag ++ p3))) :=
    noStart_seg hcC (by rw [isPrefixOf_append_left _ _ _ (by decide)]; decide) (by decide) n2
  have n4 : NoStart cCloseTag (p2 ++ (langOpenTag ++ (d ++ (langCloseTag ++ p3)))) :=
    noStart_append hcC p2 _ hp2 n3
  have n5 : NoStart cCloseTag
      (hwCloseTag ++ (p2 ++ (langOpenTag ++ (d ++ (langCloseTag ++ p3))))) :=
    noStart_seg hcC (by rw [isPrefixOf_append_left _ _ _ (by decide)]; decide) (by decide) n4
  have n6 : NoStart cCloseTag
      (b ++ (hwCloseTag ++ (p2 ++ (langOpenTag ++ (d ++ (langCloseTag ++ p3)))))) :=
    noStart_append hcC b _ hb n5
  have n7 : NoStart cCloseTag
      (hwOpenTag ++ (b ++ (hwCloseTag ++ (p2 ++ (langOpenTag ++ (d ++ (langCloseTag ++ p3))))))) :=
    noStart_seg hcC (by rw [isPrefixOf_append_left _ _ _ (by decide)]; decide) (by decide) n6
  have n8 : NoStart cCloseTag
      (p1 ++ (hwOpenTag ++ (b ++ (hwCloseTag ++ (p2 ++ (langOpenTag ++ (d ++ (langCloseTag ++ p3)))))))) :=
    noStart_append hcC p1 _ hp1 n7
  have m0 : NoStart hwCloseTag p3 := noStart_of_clean hhC p3 hp3
  have m1 : NoStart hwCloseTag (langCloseTag ++ p3) :=
    noStart_seg hhC (by rw [isPrefixOf_append_left _ _ _ (by decide)]; decide) (by decide) m0
  have m2 : NoStart hwCloseTag (d ++ (langCloseTag ++ p3)) :=
    noStart_append hhC d _ hd m1
  have m3 : NoStart hwCloseTag (langOpenTag ++ (d ++ (langCloseTag ++ p3))) :=
    noStart_seg hhC (by rw [isPrefixOf_append_left _ _ _ (by decide)]; decide) (by decide) m2
  have m4 : NoStart hwCloseTag (p2 ++ (langOpenTag ++ (d ++ (langCloseTag ++ p3)))) :=
    noStart_append hhC p2 _ hp2 m3
  have k0 : NoStart langCloseTag p3 := noStart_of_clean hlC p3 hp3
  have hp01 : ∀ c ∈ p0 ++ p1, c ≠ '<' := fun c hc =>
    (List.mem_append.mp hc).elim (fun h => hp0 c h) (fun h => hp1 c h)
  have hp012 : ∀ c ∈ (p0 ++ p1) ++ p2, c ≠ '<' := fun c hc =>
    (List.mem_append.mp hc).elim (fun h => hp01 c h) (fun h => hp2 c h)
  simp only [except_headword_strip, List.append_assoc]
  rw [stripGreedy_layout hcO hcC (by decide) p0 a _ hp0 n8]
  rw [← List.append_assoc p0 p1]
  rw [stripGreedy_layout hhO hhC (by decide) (p0 ++ p1) b _ hp01 m4]
  rw [← List.append_assoc (p0 ++ p1) p2]
  rw [stripGreedy_layout hlO hlC (by decide) ((p0 ++ p1) ++ p2) d p3 hp012 k0]
  simp [List.append_assoc]

/-- Witness for C7 at a concrete fragment. -/
theorem except_headword_strip_order_witness :
    (∀ c ∈ ['x'], c ≠ '<') ∧
    except_headword_strip
        (['x'] ++ cOpenTag ++ ['q'] ++ cCloseTag ++ ['y'] ++ hwOpenTag ++ []
          ++ hwCloseTag ++ ['z'] ++ langOpenTag ++ ['t'] ++ langCloseTag ++ ['w'])
      = ['x'] ++ ['y'] ++ ['z'] ++ ['w'] :=
  ⟨by decide,
    except_headword_strip_order ['x'] ['q'] ['y'] [] ['z'] ['t'] ['w']
      (by decide) (by decide) (by decide) (by decide) (by decide) (by decide)
      (by decide) (by decide) (by decide)⟩
